import Mathlib

/-!
Verification development for the Loom requirement-traceability store
(`src/store.py`, `src/testspec.py`).  The Python data model and operations
are shallowly embedded: dataclasses become structures, the ChromaDB
collections become association lists of (id, entry) pairs following the
adapter contract of spec §4.1 (upsert = full in-place replace by id,
point lookup, ranked nearest-neighbor query), and the effectful
`datetime.now` is passed in as an explicit `now : String` argument.
`json.dumps`/`json.loads` on the `satisfies` link list and
`hashlib.sha256(...).hexdigest()` are modelled concretely at the
character/byte level.
-/

set_option maxRecDepth 8000

namespace Loom

/-- Requirement record (`store.py`, dataclass `Requirement`).  `superseded_at`
is `None` while active.  ChromaDB stores the `to_dict()` metadata; reading it
back through `from_dict` is observably the identity, so the metadata is
modelled as the record itself. -/
structure Requirement where
  id : String
  domain : String
  value : String
  source_msg_id : String
  source_session : String
  timestamp : String
  superseded_at : Option String := none
deriving DecidableEq

/-- One entry of the `satisfies` list of an implementation
(`[{"req_id": ..., "req_version": ...}]`, `store.py` dataclass
`Implementation`). -/
structure SatLink where
  req_id : String
  req_version : String
deriving DecidableEq

/-- Implementation record (`store.py`, dataclass `Implementation`). -/
structure Implementation where
  id : String
  file : String
  lines : String
  content : String
  content_hash : String
  timestamp : String
  satisfies : List SatLink
deriving DecidableEq

/-- Metadata actually stored for an implementation: `add_implementation`
replaces the `satisfies` list by its `json.dumps` string
(`"ChromaDB needs string"`, store.py line 175). -/
structure StoredImplMeta where
  id : String
  file : String
  lines : String
  content : String
  content_hash : String
  timestamp : String
  satisfies : String
deriving DecidableEq

/-- Metadata stored for a chat message (`add_chat_message`). -/
structure ChatMeta where
  session : String
  role : String
  timestamp : String
deriving DecidableEq

/-- One record of a ChromaDB collection: embedding vector, metadata record,
document string.  Embedding coordinates are modelled as rationals (the claims
under verification never depend on floating-point rounding; vectors are only
stored, fetched back verbatim, and compared by distance for ranking). -/
structure Entry (α : Type) where
  embedding : List Rat
  metadata : α
  document : String
deriving DecidableEq

/-- Modelled from the spec: §4.1 Vector Collection Adapter contract of the
external ChromaDB engine.  Point lookup by id (`collection.get(ids=[id])`);
returns the first (unique, for API-reachable states) entry with that key. -/
def getCol {α : Type} : List (String × Entry α) → String → Option (Entry α)
  | [], _ => none
  | p :: rest, k => if p.1 = k then some p.2 else getCol rest k

/-- Modelled from the spec: §4.1 Vector Collection Adapter contract of the
external ChromaDB engine.  `upsert` is idempotent on `id`: a full in-place
replace of vector + metadata + document when the id exists, an append
otherwise. -/
def upsert {α : Type} : List (String × Entry α) → String → Entry α → List (String × Entry α)
  | [], k, e => [(k, e)]
  | p :: rest, k, e => if p.1 = k then (k, e) :: rest else p :: upsert rest k e

/-- Squared L2 distance (ChromaDB's default similarity space) between two
embedding vectors. -/
def sqDist (a b : List Rat) : Rat :=
  ((a.zip b).map (fun p => (p.1 - p.2) * (p.1 - p.2))).sum

/-- Insert one (entry, distance) pair into a distance-ascending ranked list,
after any already-ranked pair of strictly smaller or equal distance (the
adapter's tie order is unspecified; insertion order is used). -/
def insertRanked {α : Type} :
    (String × Entry α) × Rat → List ((String × Entry α) × Rat) → List ((String × Entry α) × Rat)
  | x, [] => [x]
  | x, y :: ys => if x.2 < y.2 then x :: y :: ys else y :: insertRanked x ys

/-- Modelled from the spec: §4.1 Vector Collection Adapter contract of the
external ChromaDB engine.  Nearest-neighbor query: all entries ranked by
ascending distance to the query vector, truncated to `n` results. -/
def queryCol {α : Type} (col : List (String × Entry α)) (q : List Rat) (n : Nat) :
    List ((String × Entry α) × Rat) :=
  ((col.map (fun p => (p, sqDist q p.2.embedding))).foldl
    (fun acc x => insertRanked x acc) []).take n

/-- The persistent store (`store.py`, class `LoomStore`): three collections
keyed by stable string ids. -/
structure LoomStore where
  requirements : List (String × Entry Requirement)
  implementations : List (String × Entry StoredImplMeta)
  chat_messages : List (String × Entry ChatMeta)
deriving DecidableEq

/-- A `LoomStore` whose collections are empty (a fresh project directory). -/
def emptyStore : LoomStore := ⟨[], [], []⟩

/-- Models `LoomStore.add_requirement` (store.py lines 101-108): upsert of the
record under `req.id`, with the requirement text as the document. -/
def add_requirement (s : LoomStore) (req : Requirement) (embedding : List Rat) : LoomStore :=
  { s with requirements := upsert s.requirements req.id ⟨embedding, req, req.value⟩ }

/-- Models `LoomStore.get_requirement` (store.py lines 110-115): point lookup,
returning the stored metadata record (or `None`). -/
def get_requirement (s : LoomStore) (req_id : String) : Option Requirement :=
  (getCol s.requirements req_id).map (·.metadata)

/-- Models `LoomStore.get_current_requirement` (store.py lines 117-128): the record
only while `superseded_at is None`. -/
def get_current_requirement (s : LoomStore) (req_id : String) : Option Requirement :=
  match get_requirement s req_id with
  | some req => if req.superseded_at = none then some req else none
  | none => none

/-- Embedding vector stored for a requirement id
(`requirements.get(ids=[req_id], include=["embeddings"])`). -/
def getReqEmbedding (s : LoomStore) (req_id : String) : Option (List Rat) :=
  (getCol s.requirements req_id).map (·.embedding)

/-- Document stored for a requirement id. -/
def getReqDocument (s : LoomStore) (req_id : String) : Option String :=
  (getCol s.requirements req_id).map (·.document)

/-- Python truthiness of the `Optional[str]` field `superseded_at`: the guard
`not req.superseded_at` in `supersede_requirement` is true for `None` and
also for the empty string. -/
def optStrFalsy : Option String → Bool
  | none => true
  | some s => s = ""

/-- Models `LoomStore.supersede_requirement` (store.py lines 130-139): fetch the
record; if present and `superseded_at` is falsy, set it to the current UTC
time (passed here explicitly as `now`), fetch the stored embedding back, and
re-add the mutated record.  Otherwise the store is left unchanged. -/
def supersede_requirement (s : LoomStore) (req_id : String) (now : String) : LoomStore :=
  match get_requirement s req_id with
  | none => s
  | some req =>
    if optStrFalsy req.superseded_at then
      match getReqEmbedding s req_id with
      | none => s
      | some emb => add_requirement s { req with superseded_at := some now } emb
    else s

/-- One row of the list returned by `search_requirements`
(`{"id": ..., "requirement": ..., "distance": ...}`). -/
structure ReqSearchResult where
  id : String
  requirement : Requirement
  distance : Rat
deriving DecidableEq

/-- Models `LoomStore.search_requirements` (store.py lines 141-156): nearest-neighbor
query over all requirements — active and superseded alike — returning ranked
(id, requirement, distance) rows. -/
def search_requirements (s : LoomStore) (query_embedding : List Rat) (n : Nat := 5) :
    List ReqSearchResult :=
  (queryCol s.requirements query_embedding n).map
    (fun x => { id := x.1.1, requirement := x.1.2.metadata, distance := x.2 })

/-- Models `LoomStore.list_requirements` (store.py lines 158-164): all stored
metadata records, filtered to the active ones unless `include_superseded`. -/
def list_requirements (s : LoomStore) (include_superseded : Bool := false) : List Requirement :=
  let reqs := s.requirements.map (·.2.metadata)
  if include_superseded then reqs else reqs.filter (fun r => r.superseded_at.isNone)

/-- The auto-detect suggestion list: `search_requirements` followed by the
client-side filter to rows with `superseded_at is None`
(tests/test_store.py lines 180-181; spec §4.4 Traceability Engine). -/
def auto_detect (s : LoomStore) (query_embedding : List Rat) (n : Nat := 5) :
    List ReqSearchResult :=
  (search_requirements s query_embedding n).filter
    (fun r => r.requirement.superseded_at.isNone)

/-! ### JSON encoding of the `satisfies` link list

`add_implementation` stores `json.dumps(impl.satisfies)` and every read does
`json.loads` (store.py lines 175, 185, 200, 214).  `json` is the Python
standard library; it is modelled concretely at the character level:
`escChar`/`encStr` reproduce `json.dumps` with its default options
(`ensure_ascii=True`, separators `", "` / `": "`, surrogate pairs for
astral-plane characters), and the parser below models `json.loads`
restricted to this canonical output grammar — the only strings ever parsed
by the store are ones previously produced by `json.dumps`. -/

/-- Lowercase hex digit character for a value below 16 (`%04x` formatting). -/
def hexDigitChar (n : Nat) : Char :=
  if n < 10 then Char.ofNat (48 + n) else Char.ofNat (87 + n)

/-- Numeric value of a hex digit character, upper or lower case. -/
def hexVal (c : Char) : Option Nat :=
  if '0' ≤ c ∧ c ≤ '9' then some (c.toNat - 48)
  else if 'a' ≤ c ∧ c ≤ 'f' then some (c.toNat - 87)
  else if 'A' ≤ c ∧ c ≤ 'F' then some (c.toNat - 55)
  else none

/-- The four hex digits of a 16-bit value, most significant first. -/
def hex4Chars (n : Nat) : List Char :=
  [hexDigitChar (n / 4096 % 16), hexDigitChar (n / 256 % 16),
   hexDigitChar (n / 16 % 16), hexDigitChar (n % 16)]

/-- Combined value of four hex digit characters. -/
def hex4 (a b c d : Char) : Option Nat :=
  match hexVal a, hexVal b, hexVal c, hexVal d with
  | some w, some x, some y, some z => some (4096 * w + 256 * x + 16 * y + z)
  | _, _, _, _ => none

/-- Models `json.dumps` escaping of a single character inside a JSON string, with
the default `ensure_ascii=True`: short escapes for quote, backslash and the
usual control characters, `\uXXXX` for the remaining characters outside
`0x20..0x7e`, and a UTF-16 surrogate pair for code points above `0xFFFF`. -/
def escChar (c : Char) : List Char :=
  if c = '"' then ['\\', '"']
  else if c = '\\' then ['\\', '\\']
  else if c = '\n' then ['\\', 'n']
  else if c = '\t' then ['\\', 't']
  else if c = '\r' then ['\\', 'r']
  else if c.toNat = 8 then ['\\', 'b']
  else if c.toNat = 12 then ['\\', 'f']
  else if c.toNat < 0x20 then '\\' :: 'u' :: hex4Chars c.toNat
  else if c.toNat < 0x7f then [c]
  else if c.toNat < 0x10000 then '\\' :: 'u' :: hex4Chars c.toNat
  else '\\' :: 'u' :: hex4Chars (0xD800 + (c.toNat - 0x10000) / 0x400) ++
       '\\' :: 'u' :: hex4Chars (0xDC00 + (c.toNat - 0x10000) % 0x400)

/-- JSON string literal for a character list: quote, escaped body, quote. -/
def encStr (s : List Char) : List Char :=
  '"' :: (s.flatMap escChar ++ ['"'])

/-- Prepend a character to the parsed body of a string-parse result. -/
def consRes (c : Char) : Option (List Char × List Char) → Option (List Char × List Char)
  | some (s, r) => some (c :: s, r)
  | none => none

mutual

/-- Parse the body of a JSON string (opening quote already consumed) up to
and including the closing quote, returning the decoded body and the
remaining input. -/
def parseStrContent : List Char → Option (List Char × List Char)
  | [] => none
  | c :: rest =>
    if c = '"' then some ([], rest)
    else if c = '\\' then parseEscape rest
    else consRes c (parseStrContent rest)

/-- Parse what follows a backslash inside a JSON string. -/
def parseEscape : List Char → Option (List Char × List Char)
  | [] => none
  | e :: rest =>
    if e = '"' then consRes '"' (parseStrContent rest)
    else if e = '\\' then consRes '\\' (parseStrContent rest)
    else if e = '/' then consRes '/' (parseStrContent rest)
    else if e = 'n' then consRes '\n' (parseStrContent rest)
    else if e = 't' then consRes '\t' (parseStrContent rest)
    else if e = 'r' then consRes '\r' (parseStrContent rest)
    else if e = 'b' then consRes (Char.ofNat 8) (parseStrContent rest)
    else if e = 'f' then consRes (Char.ofNat 12) (parseStrContent rest)
    else if e = 'u' then parseUnicode rest
    else none

/-- Parse the four hex digits of a `\uXXXX` escape; a high surrogate must be
followed by a low-surrogate escape, which is recombined into one code
point. -/
def parseUnicode : List Char → Option (List Char × List Char)
  | d1 :: d2 :: d3 :: d4 :: rest =>
    match hex4 d1 d2 d3 d4 with
    | none => none
    | some v =>
      if 0xD800 ≤ v ∧ v ≤ 0xDBFF then parseLowSurrogate v rest
      else if 0xDC00 ≤ v ∧ v ≤ 0xDFFF then none
      else consRes (Char.ofNat v) (parseStrContent rest)
  | _ => none

/-- Parse the `\uXXXX` low-surrogate escape following a high surrogate
`hi`. -/
def parseLowSurrogate (hi : Nat) : List Char → Option (List Char × List Char)
  | b :: u :: d1 :: d2 :: d3 :: d4 :: rest =>
    if b = '\\' ∧ u = 'u' then
      match hex4 d1 d2 d3 d4 with
      | some w =>
        if 0xDC00 ≤ w ∧ w ≤ 0xDFFF then
          consRes (Char.ofNat (0x10000 + (hi - 0xD800) * 0x400 + (w - 0xDC00)))
            (parseStrContent rest)
        else none
      | none => none
    else none
  | _ => none

end

/-- Parse a complete JSON string literal, opening quote included. -/
def parseQuoted : List Char → Option (List Char × List Char)
  | '"' :: rest => parseStrContent rest
  | _ => none

/-- Match a literal character sequence, returning the remaining input. -/
def dropLit : List Char → List Char → Option (List Char)
  | [], cs => some cs
  | p :: ps, c :: cs => if c = p then dropLit ps cs else none
  | _ :: _, [] => none

/-- Characters opening one serialized link record: `{"req_id": `. -/
def linkKeyId : List Char := "\x7b\"req_id\": ".data

/-- Characters between the two values: `, "req_version": `. -/
def linkKeyVer : List Char := ", \"req_version\": ".data

/-- Models `json.dumps` of one `satisfies` entry (Python dict insertion order:
`req_id` first, then `req_version`). -/
def encLink (sl : SatLink) : List Char :=
  linkKeyId ++ encStr sl.req_id.data ++ linkKeyVer ++ encStr sl.req_version.data ++ ['\x7d']

/-- The serialized entries joined by `", "` (the `json.dumps` default item
separator). -/
def encLinks : List SatLink → List Char
  | [] => []
  | [sl] => encLink sl
  | sl :: rest => encLink sl ++ ',' :: ' ' :: encLinks rest

/-- Models `json.dumps(impl.satisfies)`: the serialized entries in brackets. -/
def dumpsSatisfies (l : List SatLink) : String :=
  String.mk ('[' :: encLinks l ++ [']'])

/-- Parse one serialized link record in the canonical `json.dumps` layout. -/
def parseLink (cs : List Char) : Option (SatLink × List Char) := do
  let cs1 ← dropLit linkKeyId cs
  let (v1, cs2) ← parseQuoted cs1
  let cs3 ← dropLit linkKeyVer cs2
  let (v2, cs4) ← parseQuoted cs3
  let cs5 ← dropLit ['\x7d'] cs4
  some (⟨String.mk v1, String.mk v2⟩, cs5)

/-- Parse the remainder of a non-empty serialized link list: one link, then
either the closing bracket ending the input or a `", "` separator and more
links.  `fuel` only bounds the recursion (each iteration consumes at least
one character, so any fuel of at least the input length is exact). -/
def parseLinksRest : Nat → List Char → Option (List SatLink)
  | 0, _ => none
  | fuel + 1, cs =>
    match parseLink cs with
    | none => none
    | some (sl, rest) =>
      match rest with
      | [']'] => some [sl]
      | ',' :: ' ' :: rest2 => (parseLinksRest fuel rest2).map (sl :: ·)
      | _ => none

/-- Models `json.loads` of a serialized `satisfies` list, restricted to the
canonical `json.dumps` output grammar (list of two-key string records).
Returns `none` where `json.loads` would raise. -/
def loadsSatisfies (s : String) : Option (List SatLink) :=
  match s.data with
  | c :: rest =>
    if c = '[' then
      if rest = [']'] then some []
      else parseLinksRest rest.length rest
    else none
  | [] => none

/-- Metadata written by `add_implementation`
(`{**impl.to_dict(), "satisfies": json.dumps(impl.satisfies)}`). -/
def encodeImplMeta (impl : Implementation) : StoredImplMeta :=
  { id := impl.id, file := impl.file, lines := impl.lines, content := impl.content,
    content_hash := impl.content_hash, timestamp := impl.timestamp,
    satisfies := dumpsSatisfies impl.satisfies }

/-- Reading an implementation back:
`meta["satisfies"] = json.loads(meta["satisfies"]); Implementation.from_dict(meta)`.
`none` models the `json.loads` exception on an unparseable stored string. -/
def decodeImplMeta (m : StoredImplMeta) : Option Implementation :=
  (loadsSatisfies m.satisfies).map fun l =>
    { id := m.id, file := m.file, lines := m.lines, content := m.content,
      content_hash := m.content_hash, timestamp := m.timestamp, satisfies := l }

/-- Models `LoomStore.add_implementation` (store.py lines 168-178): upsert under
`impl.id` with the `satisfies` list serialized to a string and the code
chunk as the document. -/
def add_implementation (s : LoomStore) (impl : Implementation) (embedding : List Rat) :
    LoomStore :=
  { s with implementations :=
      upsert s.implementations impl.id ⟨embedding, encodeImplMeta impl, impl.content⟩ }

/-- Models `LoomStore.get_implementation` (store.py lines 180-187): point lookup
plus deserialization of the `satisfies` string. -/
def get_implementation (s : LoomStore) (impl_id : String) : Option Implementation :=
  (getCol s.implementations impl_id).bind fun e => decodeImplMeta e.metadata

/-- Models `LoomStore.get_implementations_for_requirement` (store.py lines 208-218):
full scan of the implementations collection, deserializing every `satisfies`
list and keeping the records with a link whose `req_id` matches.  `none`
models the `json.loads` exception if any stored entry fails to parse. -/
def get_implementations_for_requirement (s : LoomStore) (req_id : String) :
    Option (List Implementation) :=
  s.implementations.foldr
    (fun p acc =>
      match decodeImplMeta p.2.metadata, acc with
      | some impl, some l =>
        some (if impl.satisfies.any (fun sl => sl.req_id = req_id) then impl :: l else l)
      | _, _ => none)
    (some [])

/-- Models `LoomStore.add_chat_message` (store.py lines 222-241). -/
def add_chat_message (s : LoomStore) (msg_id content : String) (embedding : List Rat)
    (session role timestamp : String) : LoomStore :=
  { s with chat_messages :=
      upsert s.chat_messages msg_id ⟨embedding, ⟨session, role, timestamp⟩, content⟩ }

/-! ### SHA-256 (`hashlib.sha256`, Python standard library)

`generate_impl_id` and `generate_content_hash` hash the UTF-8 bytes of their
input and format the digest in lowercase hex.  The hash is modelled in full
over `Nat` words reduced modulo `2^32`. -/

/-- UTF-8 bytes of one character (`str.encode()`). -/
def utf8Bytes (c : Char) : List Nat :=
  let v := c.toNat
  if v < 0x80 then [v]
  else if v < 0x800 then [0xC0 + v / 0x40, 0x80 + v % 0x40]
  else if v < 0x10000 then [0xE0 + v / 0x1000, 0x80 + v / 0x40 % 0x40, 0x80 + v % 0x40]
  else [0xF0 + v / 0x40000, 0x80 + v / 0x1000 % 0x40, 0x80 + v / 0x40 % 0x40, 0x80 + v % 0x40]

/-- UTF-8 bytes of a string. -/
def strBytes (s : String) : List Nat :=
  s.data.flatMap utf8Bytes

/-- Reduction to a 32-bit word. -/
def w32 (n : Nat) : Nat := n % 4294967296

/-- Right rotation of a 32-bit word by `n` places. -/
def rotr (n x : Nat) : Nat := w32 (x / 2 ^ n + x % 2 ^ n * 2 ^ (32 - n))

/-- Bitwise complement of a 32-bit word. -/
def bnot32 (x : Nat) : Nat := 4294967295 - w32 x

/-- SHA-256 round constants. -/
def sha256K : List Nat :=
  [1116352408, 1899447441, 3049323471, 3921009573, 961987163, 1508970993,
   2453635748, 2870763221, 3624381080, 310598401, 607225278, 1426881987,
   1925078388, 2162078206, 2614888103, 3248222580, 3835390401, 4022224774,
   264347078, 604807628, 770255983, 1249150122, 1555081692, 1996064986,
   2554220882, 2821834349, 2952996808, 3210313671, 3336571891, 3584528711,
   113926993, 338241895, 666307205, 773529912, 1294757372, 1396182291,
   1695183700, 1986661051, 2177026350, 2456956037, 2730485921, 2820302411,
   3259730800, 3345764771, 3516065817, 3600352804, 4094571909, 275423344,
   430227734, 506948616, 659060556, 883997877, 958139571, 1322822218,
   1537002063, 1747873779, 1955562222, 2024104815, 2227730452, 2361852424,
   2428436474, 2756734187, 3204031479, 3329325298]

/-- SHA-256 initial hash value. -/
def sha256H0 : List Nat :=
  [1779033703, 3144134277, 1013904242, 2773480762, 1359893119, 2600822924,
   528734635, 1541459225]

/-- Message-schedule small sigma 0. -/
def ssig0 (x : Nat) : Nat := rotr 7 x ^^^ rotr 18 x ^^^ x / 2 ^ 3

/-- Message-schedule small sigma 1. -/
def ssig1 (x : Nat) : Nat := rotr 17 x ^^^ rotr 19 x ^^^ x / 2 ^ 10

/-- Compression big sigma 0. -/
def bsig0 (x : Nat) : Nat := rotr 2 x ^^^ rotr 13 x ^^^ rotr 22 x

/-- Compression big sigma 1. -/
def bsig1 (x : Nat) : Nat := rotr 6 x ^^^ rotr 11 x ^^^ rotr 25 x

/-- One message-schedule extension step on the reversed schedule (most
recent word first): `w[t] = σ1 w[t-2] + w[t-7] + σ0 w[t-15] + w[t-16]`. -/
def stepSchedule (ws : List Nat) : List Nat :=
  w32 (ssig1 (ws.getD 1 0) + ws.getD 6 0 + ssig0 (ws.getD 14 0) + ws.getD 15 0) :: ws

/-- Iterate the schedule extension. -/
def extendSchedule : Nat → List Nat → List Nat
  | 0, ws => ws
  | k + 1, ws => extendSchedule k (stepSchedule ws)

/-- The 64-word message schedule of one 16-word block. -/
def schedule (block : List Nat) : List Nat :=
  (extendSchedule 48 block.reverse).reverse

/-- One SHA-256 compression round; the state is the 8-word list
`[a,b,c,d,e,f,g,h]` and `kw` the pair of round constant and schedule
word. -/
def compressStep (st : List Nat) (kw : Nat × Nat) : List Nat :=
  match st with
  | [a, b, c, d, e, f, g, h] =>
    let t1 := w32 (h + bsig1 e + ((e &&& f) ^^^ (bnot32 e &&& g)) + kw.1 + kw.2)
    let t2 := w32 (bsig0 a + ((a &&& b) ^^^ (a &&& c) ^^^ (b &&& c)))
    [w32 (t1 + t2), a, b, c, w32 (d + t1), e, f, g]
  | other => other

/-- Process one 16-word block: 64 compression rounds, then the feed-forward
addition into the running hash. -/
def processBlock (h : List Nat) (block : List Nat) : List Nat :=
  let st := ((sha256K.zip (schedule block)).foldl compressStep h)
  (h.zip st).map (fun p => w32 (p.1 + p.2))

/-- Big-endian 32-bit words of a byte list. -/
def bytesToWords : List Nat → List Nat
  | b0 :: b1 :: b2 :: b3 :: rest =>
    (b0 * 16777216 + b1 * 65536 + b2 * 256 + b3) :: bytesToWords rest
  | _ => []

/-- Split a padded byte list into 16-word blocks. -/
def toBlocks : List Nat → List (List Nat)
  | [] => []
  | b :: bs =>
    bytesToWords ((b :: bs).take 64) :: toBlocks ((b :: bs).drop 64)
termination_by bs => bs.length
decreasing_by
  simp only [List.length_drop, List.length_cons]
  omega

/-- SHA-256 padding: `0x80`, zeros up to 56 bytes mod 64, then the bit
length as 8 big-endian bytes. -/
def shaPad (msg : List Nat) : List Nat :=
  let L := msg.length
  let bitLen := 8 * L
  msg ++ 0x80 :: List.replicate ((119 - L % 64) % 64) 0 ++
    [bitLen / 2 ^ 56 % 256, bitLen / 2 ^ 48 % 256, bitLen / 2 ^ 40 % 256, bitLen / 2 ^ 32 % 256,
     bitLen / 2 ^ 24 % 256, bitLen / 2 ^ 16 % 256, bitLen / 2 ^ 8 % 256, bitLen % 256]

/-- The eight 32-bit digest words of a byte message. -/
def sha256Words (msg : List Nat) : List Nat :=
  (toBlocks (shaPad msg)).foldl processBlock sha256H0

/-- Eight lowercase hex characters of one 32-bit word. -/
def wordHex (w : Nat) : List Char :=
  [hexDigitChar (w / 16 ^ 7 % 16), hexDigitChar (w / 16 ^ 6 % 16), hexDigitChar (w / 16 ^ 5 % 16),
   hexDigitChar (w / 16 ^ 4 % 16), hexDigitChar (w / 16 ^ 3 % 16), hexDigitChar (w / 16 ^ 2 % 16),
   hexDigitChar (w / 16 % 16), hexDigitChar (w % 16)]

/-- Models `hashlib.sha256(s.encode()).hexdigest()`: the 64-character lowercase hex
digest of a string's UTF-8 bytes. -/
def sha256Hex (s : String) : String :=
  String.mk ((sha256Words (strBytes s)).flatMap wordHex)

/-- Models `generate_impl_id` (store.py lines 272-274): first 16 hex characters of
the SHA-256 digest of `f"{file}:{lines}"` — a function of the location
alone, never of the chunk content. -/
def generate_impl_id (file : String) (lines : String) : String :=
  String.mk ((sha256Hex (file ++ ":" ++ lines)).data.take 16)

/-- Models `generate_content_hash` (store.py lines 277-279). -/
def generate_content_hash (content : String) : String :=
  sha256Hex content

/-! ### Test-spec registry (`src/testspec.py`)

File-backed store of test specifications plus the private-id set parsed
from the `PRIVATE.md` annotation file.  The Python string primitives used
by the parser (`str.strip`, `str.split`, `str.rstrip`, `str.startswith`,
`str.split('\n')`) are modelled below; `strip`/`split` use the ASCII
whitespace set (the repository's inputs contain no exotic Unicode
whitespace). -/

/-- Test specification record (`testspec.py`, dataclass `TestSpec`).  The
Python field `private` is a Lean keyword and is written `«private»`. -/
structure TestSpec where
  req_id : String
  description : String
  steps : List String := []
  expected : String := ""
  automated : Bool := false
  test_file : Option String := none
  last_verified : Option String := none
  «private» : Bool := false
deriving DecidableEq

/-- Whitespace as recognized by `str.strip()` / `str.split()`. -/
def isPyWs (c : Char) : Bool :=
  c = ' ' || c = '\t' || c = '\n' || c = '\r' || c = '\x0b' || c = '\x0c'

/-- Models `str.strip()`: drop leading and trailing whitespace. -/
def pyStrip (s : String) : String :=
  String.mk (((s.data.dropWhile isPyWs).reverse.dropWhile isPyWs).reverse)

/-- Accumulator-based worker for `str.split()`. -/
def pySplitAux : List Char → List Char → List String
  | cur, [] => if cur = [] then [] else [String.mk cur.reverse]
  | cur, c :: rest =>
    if isPyWs c then
      if cur = [] then pySplitAux [] rest
      else String.mk cur.reverse :: pySplitAux [] rest
    else pySplitAux (c :: cur) rest

/-- Models `str.split()` with no argument: split on whitespace runs, no empty
tokens. -/
def pySplit (s : String) : List String :=
  pySplitAux [] s.data

/-- Models `str.rstrip(':,')`: drop trailing colons and commas. -/
def pyRstripPunct (s : String) : String :=
  String.mk ((s.data.reverse.dropWhile (fun c => c = ':' || c = ',')).reverse)

/-- The id contributed by one (already stripped) line of `PRIVATE.md`, per
`TestSpecStore._load_private` (testspec.py lines 55-65): a `- REQ-` or
`* REQ-` bullet line yields its second whitespace token, a bare `REQ-` line
its first, both with trailing `:`/`,` stripped; every other line yields
nothing. -/
def privLineId (line : String) : Option String :=
  if "- REQ-".isPrefixOf line || "* REQ-".isPrefixOf line then
    some (pyRstripPunct ((pySplit line).getD 1 ""))
  else if "REQ-".isPrefixOf line then
    some (pyRstripPunct ((pySplit line).getD 0 ""))
  else none

/-- Models `TestSpecStore._load_private`: split the file content on newlines, strip
each line, and accumulate the extracted ids into the private-id set
(Python `set.add`; modelled by dedupe-on-insert, membership-equivalent). -/
def load_private_ids (content : String) : List String :=
  (content.splitOn "\n").foldl
    (fun acc raw =>
      match privLineId (pyStrip raw) with
      | some x => acc.insert x
      | none => acc)
    []

/-- In-memory state of `TestSpecStore`: the spec map keyed by `req_id` and
the private-id set. -/
structure TestSpecStore where
  specs : List (String × TestSpec)
  private_ids : List String
deriving DecidableEq

/-- Models `TestSpecStore._load` (testspec.py lines 45-53): the spec map comes from
the JSON specs file (given here already decoded), the private-id set from
the `PRIVATE.md` content when that file exists (`none` = absent). -/
def TestSpecStore.load (specs : List (String × TestSpec)) (privateContent : Option String) :
    TestSpecStore :=
  { specs := specs,
    private_ids := match privateContent with
      | some c => load_private_ids c
      | none => [] }

/-- Replace-or-append write to the spec map (Python `dict` assignment). -/
def putSpec : List (String × TestSpec) → String → TestSpec → List (String × TestSpec)
  | [], k, sp => [(k, sp)]
  | p :: rest, k, sp => if p.1 = k then (k, sp) :: rest else p :: putSpec rest k sp

/-- Models `TestSpecStore.add_spec` (testspec.py lines 72-75): upsert keyed by
`spec.req_id` (the full-file rewrite in `_save` has no in-memory effect). -/
def add_spec (st : TestSpecStore) (spec : TestSpec) : TestSpecStore :=
  { st with specs := putSpec st.specs spec.req_id spec }

/-- Models `TestSpecStore.get_spec` (testspec.py lines 77-79). -/
def get_spec (st : TestSpecStore) (req_id : String) : Option TestSpec :=
  st.specs.lookup req_id

/-- Models `TestSpecStore.list_specs` (testspec.py lines 81-86). -/
def list_specs (st : TestSpecStore) (include_private : Bool := true) : List TestSpec :=
  let specs := st.specs.map (·.2)
  if include_private then specs
  else specs.filter (fun sp => ¬ sp.req_id ∈ st.private_ids ∧ sp.«private» = false)

/-- Models `TestSpecStore.is_private` (testspec.py lines 88-93): membership in the
private-id set, OR the spec's own `private` flag; `false` when no spec
exists. -/
def is_private (st : TestSpecStore) (req_id : String) : Bool :=
  if req_id ∈ st.private_ids then true
  else
    match get_spec st req_id with
    | some spec => spec.«private»
    | none => false

/-! ### Operation traces over the store

The mutating `LoomStore` operations as one step type, for stating
trace-quantified invariants.  The remaining public methods
(`get_requirement`, `get_current_requirement`, `search_requirements`,
`list_requirements`, `get_implementation`, `search_implementations`,
`get_implementations_for_requirement`, `search_chat`, `stats`) are reads:
they return values without writing any collection, so they cannot change
any stored field. -/

/-- One mutating store operation.  The `now` of `supersedeReq` is the
sampled wall-clock timestamp. -/
inductive Op where
  | addReq (req : Requirement) (embedding : List Rat)
  | supersedeReq (req_id : String) (now : String)
  | addImpl (impl : Implementation) (embedding : List Rat)
  | addChat (msg_id content : String) (embedding : List Rat) (session role timestamp : String)
deriving DecidableEq

/-- Apply one operation to the store. -/
def applyOp (s : LoomStore) : Op → LoomStore
  | .addReq req emb => add_requirement s req emb
  | .supersedeReq req_id now => supersede_requirement s req_id now
  | .addImpl impl emb => add_implementation s impl emb
  | .addChat msg_id content emb session role timestamp =>
      add_chat_message s msg_id content emb session role timestamp

/-- Apply a sequence of operations from left to right. -/
def applyOps (s : LoomStore) (ops : List Op) : LoomStore :=
  ops.foldl applyOp s

/-- The requirement stored under `id` exists and is superseded
(`superseded_at` non-null). -/
def nonNullAt (s : LoomStore) (id : String) : Bool :=
  match get_requirement s id with
  | some r => r.superseded_at.isSome
  | none => false

/-- An operation that never writes a null `superseded_at` over the record
keyed `id`: any operation except an `add_requirement` that passes a
requirement with this id and a null `superseded_at`. -/
def opAvoids (id : String) : Op → Bool
  | .addReq req _ => ¬ (req.id = id ∧ req.superseded_at = none)
  | _ => true

/-- Well-formedness of the requirements collection, maintained by the store
API: each entry is keyed by its own metadata id and documents the
requirement text. -/
def WFReqs (s : LoomStore) : Prop :=
  ∀ p ∈ s.requirements, p.1 = p.2.metadata.id ∧ p.2.document = p.2.metadata.value

instance (s : LoomStore) : Decidable (WFReqs s) :=
  inferInstanceAs (Decidable (∀ p ∈ s.requirements, _ ∧ _))

/-! ### Concrete sample data

Small concrete stores (mirroring the fixtures of `tests/test_store.py`)
used by counterexamples and witnesses.  Embeddings are one-dimensional for
brevity; none of the verified properties depends on the vector values. -/

/-- An active sample requirement. -/
def demoReq : Requirement :=
  { id := "REQ-001", domain := "behavior", value := "Dashboard shows status",
    source_msg_id := "msg-1", source_session := "test-session",
    timestamp := "2026-01-01T00:00:00+00:00" }

/-- A store holding just `demoReq`. -/
def demoStore : LoomStore := add_requirement emptyStore demoReq [1]

/-- Models `demoStore` after superseding `REQ-001`. -/
def demoSuperStore : LoomStore :=
  supersede_requirement demoStore "REQ-001" "2026-02-01T00:00:00+00:00"

/-- A requirement whose `superseded_at` is the empty string: non-null, hence
superseded by the data model of spec §3, but falsy for Python. -/
def demoReqEmptyTs : Requirement := { demoReq with id := "REQ-002", superseded_at := some "" }

/-- A store holding just `demoReqEmptyTs`. -/
def demoEmptyTsStore : LoomStore := add_requirement emptyStore demoReqEmptyTs [1]

/-- A second, still-active sample requirement. -/
def demoReq2 : Requirement :=
  { demoReq with
      id := "REQ-003"
      value := "Dashboard shows status and agents"
      source_msg_id := "msg-3" }

/-- A store with `REQ-001` superseded and `REQ-003` active. -/
def demoTwoStore : LoomStore := add_requirement demoSuperStore demoReq2 [1]

/-- A sample implementation satisfying `REQ-001`. -/
def demoImpl : Implementation :=
  { id := "IMPL-001", file := "src/dashboard.py", lines := "1-50",
    content := "def render_dashboard(): pass", content_hash := "abc123",
    timestamp := "2026-01-01T00:00:00+00:00",
    satisfies := [⟨"REQ-001", "v1"⟩] }

/-- A store holding just `demoImpl`. -/
def demoImplStore : LoomStore := add_implementation emptyStore demoImpl [1]

/-- Models `demoImpl` re-keyed by the id generated from its location. -/
def demoLoc1 : Implementation :=
  { demoImpl with id := generate_impl_id "src/dashboard.py" "1-50" }

/-- A second link of the same `(file, lines)` location with different
content. -/
def demoLoc2 : Implementation :=
  { demoLoc1 with content := "def render_dashboard(): return 1", content_hash := "def456" }

/-! ## Helper lemmas about the collection adapter -/

theorem getCol_upsert_self {α : Type} (col : List (String × Entry α)) (k : String) (e : Entry α) :
    getCol (upsert col k e) k = some e := by
  induction col with
  | nil => simp [upsert, getCol]
  | cons p rest ih =>
    by_cases h : p.1 = k
    · simp [upsert, h, getCol]
    · simp [upsert, h, getCol, ih]

theorem getCol_upsert_other {α : Type} (col : List (String × Entry α)) (k k' : String)
    (e : Entry α) (h : k' ≠ k) : getCol (upsert col k e) k' = getCol col k' := by
  have hk : ¬ k = k' := fun h' => h h'.symm
  induction col with
  | nil => simp [upsert, getCol, hk]
  | cons p rest ih =>
    by_cases hp : p.1 = k
    · simp [upsert, hp, getCol, hk]
    · simp only [upsert, hp, if_false, getCol]
      by_cases hp' : p.1 = k'
      · simp [hp']
      · simp [hp', ih]

theorem getCol_mem {α : Type} {col : List (String × Entry α)} {k : String} {e : Entry α}
    (h : getCol col k = some e) : (k, e) ∈ col := by
  induction col with
  | nil => simp [getCol] at h
  | cons p rest ih =>
    obtain ⟨pk, pe⟩ := p
    by_cases hp : pk = k
    · subst hp
      simp only [getCol, if_true, eq_self_iff_true, if_pos, Option.some.injEq] at h
      rw [← h]
      exact List.mem_cons_self _ _
    · simp only [getCol, if_neg hp] at h
      exact List.mem_cons_of_mem _ (ih h)

theorem mapFst_upsert {α : Type} (col : List (String × Entry α)) (k : String) (e : Entry α) :
    (upsert col k e).map Prod.fst =
      if k ∈ col.map Prod.fst then col.map Prod.fst else col.map Prod.fst ++ [k] := by
  induction col with
  | nil => simp [upsert]
  | cons p rest ih =>
    by_cases hp : p.1 = k
    · simp [upsert, hp]
    · have hkp : ¬ k = p.1 := fun h => hp h.symm
      by_cases hm : k ∈ rest.map Prod.fst
      · simp [upsert, hp, ih, hm, hkp, List.mem_cons]
      · simp [upsert, hp, ih, hm, hkp, List.mem_cons]

theorem mem_mapFst_upsert {α : Type} (col : List (String × Entry α)) (k : String) (e : Entry α) :
    k ∈ (upsert col k e).map Prod.fst := by
  rw [mapFst_upsert]
  by_cases hm : k ∈ col.map Prod.fst <;> simp [hm]

theorem nodup_upsert {α : Type} (col : List (String × Entry α)) (k : String) (e : Entry α)
    (h : (col.map Prod.fst).Nodup) : ((upsert col k e).map Prod.fst).Nodup := by
  rw [mapFst_upsert]
  by_cases hm : k ∈ col.map Prod.fst
  · simpa [hm]
  · simpa [hm, List.nodup_append] using h

theorem getCol_isSome_of_mapFst {α : Type} (col : List (String × Entry α)) (k : String)
    (h : (getCol col k).isSome = true) : k ∈ col.map Prod.fst := by
  induction col with
  | nil => simp [getCol] at h
  | cons p rest ih =>
    by_cases hp : p.1 = k
    · simp [hp]
    · simp only [getCol, hp, if_false] at h
      exact List.mem_cons_of_mem _ (ih h)

/-! ## C2: auto-detect never surfaces superseded requirements -/

/-- C2.  Auto-detect exclusion: for every store state, query embedding and
candidate count, the auto-detect suggestion list (ranked search results
filtered to `superseded_at is None`) contains no superseded requirement,
and it is a sublist of the ranked search results — the filter preserves the
relative rank order of the surviving candidates. -/
theorem auto_detect_excludes_superseded :
    ∀ (s : LoomStore) (q : List Rat) (n : Nat),
      (∀ res ∈ auto_detect s q n, res.requirement.superseded_at = none) ∧
      (auto_detect s q n).Sublist (search_requirements s q n) := by
  intro s q n
  constructor
  · intro res hres
    have := List.of_mem_filter hres
    simpa [Option.isNone_iff_eq_none] using this
  · exact List.filter_sublist _

/-- C2 witness: the exclusion theorem applied to a store holding one
superseded and one active requirement at equal distance from the query
(where the suggestion list is non-empty: it retains the active
candidate). -/
theorem auto_detect_excludes_superseded_witness :
    (∀ res ∈ auto_detect demoTwoStore [1] 5, res.requirement.superseded_at = none) ∧
    (auto_detect demoTwoStore [1] 5).Sublist (search_requirements demoTwoStore [1] 5) :=
  auto_detect_excludes_superseded demoTwoStore [1] 5

/-! ## C5: list filtering -/

/-- C5.  List filtering: `list_requirements false` holds exactly the stored
requirements with null `superseded_at`, `list_requirements true` is the full
stored list, and the two differ only in superseded members. -/
theorem list_requirements_filtering :
    ∀ (s : LoomStore) (r : Requirement),
      (r ∈ list_requirements s false ↔
        r ∈ s.requirements.map (·.2.metadata) ∧ r.superseded_at = none) ∧
      list_requirements s true = s.requirements.map (·.2.metadata) ∧
      (r ∈ list_requirements s false → r ∈ list_requirements s true) ∧
      (r ∈ list_requirements s true → r ∉ list_requirements s false →
        r.superseded_at ≠ none) := by
  intro s r
  refine ⟨?_, rfl, ?_, ?_⟩
  · simp [list_requirements, List.mem_filter, Option.isNone_iff_eq_none]
  · intro h
    simp only [list_requirements, Bool.false_eq_true, if_false, if_true] at h ⊢
    exact List.mem_of_mem_filter h
  · intro ht hf hnone
    simp only [list_requirements, Bool.false_eq_true, if_false, if_true, List.mem_filter,
      Option.isNone_iff_eq_none] at ht hf
    exact hf ⟨ht, hnone⟩

/-- C5 witness: the filtering theorem applied to the two-requirement store
and its superseded member. -/
theorem list_requirements_filtering_witness :
    ((demoReq ∈ list_requirements demoTwoStore false ↔
      demoReq ∈ demoTwoStore.requirements.map (·.2.metadata) ∧
        demoReq.superseded_at = none) ∧
     list_requirements demoTwoStore true = demoTwoStore.requirements.map (·.2.metadata) ∧
     (demoReq ∈ list_requirements demoTwoStore false →
       demoReq ∈ list_requirements demoTwoStore true) ∧
     (demoReq ∈ list_requirements demoTwoStore true →
       demoReq ∉ list_requirements demoTwoStore false →
       demoReq.superseded_at ≠ none)) :=
  list_requirements_filtering demoTwoStore demoReq

/-! ## C6: privacy OR-semantics -/

/-- C6.  Privacy OR-semantics: `is_private` reports a requirement private
exactly when it belongs to the private-id set parsed from the annotation
file, or a stored spec for it carries `private = true` (or both); with
neither source — in particular with no spec at all — it reports public. -/
theorem is_private_or_semantics :
    ∀ (specs : List (String × TestSpec)) (content : String) (req_id : String),
      is_private (TestSpecStore.load specs (some content)) req_id = true ↔
        (req_id ∈ load_private_ids content ∨
         ∃ sp, get_spec (TestSpecStore.load specs (some content)) req_id = some sp ∧
           sp.«private» = true) := by
  intro specs content req_id
  simp only [is_private, TestSpecStore.load, get_spec]
  by_cases hm : req_id ∈ load_private_ids content
  · simp [hm]
  · simp only [hm, if_false, false_or]
    cases hsp : List.lookup req_id specs with
    | none => simp [hsp]
    | some sp => simp [hsp]

/-! ## C7: annotation-file parsing -/

theorem mem_load_private_aux (lines : List String) :
    ∀ (acc : List String) (x : String),
      (x ∈ lines.foldl
        (fun a raw =>
          match privLineId (pyStrip raw) with
          | some y => a.insert y
          | none => a) acc) ↔
      x ∈ acc ∨ ∃ raw ∈ lines, privLineId (pyStrip raw) = some x := by
  induction lines with
  | nil => simp
  | cons l rest ih =>
    intro acc x
    simp only [List.foldl_cons]
    cases hl : privLineId (pyStrip l) with
    | none =>
      rw [ih]
      simp [hl]
    | some y =>
      rw [ih]
      constructor
      · rintro (hin | ⟨raw, hraw, hx⟩)
        · rcases List.mem_insert_iff.mp hin with rfl | hacc
          · exact Or.inr ⟨l, List.mem_cons_self _ _, hl⟩
          · exact Or.inl hacc
        · exact Or.inr ⟨raw, List.mem_cons_of_mem _ hraw, hx⟩
      · rintro (hacc | ⟨raw, hraw, hx⟩)
        · exact Or.inl (List.mem_insert_iff.mpr (Or.inr hacc))
        · rcases List.mem_cons.mp hraw with rfl | hraw'
          · rw [hl] at hx
            exact Or.inl (List.mem_insert_iff.mpr (Or.inl (Option.some.inj hx).symm))
          · exact Or.inr ⟨raw, hraw', hx⟩

theorem privLineId_eq_some (line x : String) :
    privLineId line = some x ↔
      ((("- REQ-".isPrefixOf line = true ∨ "* REQ-".isPrefixOf line = true) ∧
        x = pyRstripPunct ((pySplit line).getD 1 "")) ∨
       ("- REQ-".isPrefixOf line = false ∧ "* REQ-".isPrefixOf line = false ∧
        "REQ-".isPrefixOf line = true ∧
        x = pyRstripPunct ((pySplit line).getD 0 ""))) := by
  cases ha : "- REQ-".isPrefixOf line <;> cases hb : "* REQ-".isPrefixOf line <;>
    cases hc : "REQ-".isPrefixOf line <;>
      simp [privLineId, ha, hb, hc, eq_comm]

/-- C7.  Annotation-file parsing: an id belongs to the parsed private set
exactly when some line of the file, once stripped of surrounding
whitespace, either starts with a `- REQ-` / `* REQ-` bullet — contributing
its second whitespace-delimited token with trailing `:`/`,` removed — or
starts with a bare `REQ-` — contributing its first token likewise; every
other line contributes nothing (and parsing never fails). -/
theorem load_private_ids_characterization :
    ∀ (content x : String),
      x ∈ load_private_ids content ↔
        ∃ raw ∈ content.splitOn "\n",
          ((("- REQ-".isPrefixOf (pyStrip raw) = true ∨
             "* REQ-".isPrefixOf (pyStrip raw) = true) ∧
            x = pyRstripPunct ((pySplit (pyStrip raw)).getD 1 "")) ∨
           ("- REQ-".isPrefixOf (pyStrip raw) = false ∧
            "* REQ-".isPrefixOf (pyStrip raw) = false ∧
            "REQ-".isPrefixOf (pyStrip raw) = true ∧
            x = pyRstripPunct ((pySplit (pyStrip raw)).getD 0 ""))) := by
  intro content x
  rw [load_private_ids, mem_load_private_aux]
  simp only [List.not_mem_nil, false_or, privLineId_eq_some]

/-! ## Helper lemmas about the store operations -/

theorem get_requirement_add_self (s : LoomStore) (req : Requirement) (emb : List Rat) :
    get_requirement (add_requirement s req emb) req.id = some req := by
  simp [get_requirement, add_requirement, getCol_upsert_self]

theorem get_requirement_add_other (s : LoomStore) (req : Requirement) (emb : List Rat)
    (id : String) (h : id ≠ req.id) :
    get_requirement (add_requirement s req emb) id = get_requirement s id := by
  simp [get_requirement, add_requirement, getCol_upsert_other _ _ _ _ h]

theorem isSome_of_not_falsy {o : Option String} (h : optStrFalsy o = false) :
    o.isSome = true := by
  cases o <;> simp [optStrFalsy] at h ⊢

theorem get_requirement_entry {s : LoomStore} {id : String} {r : Requirement}
    (h : get_requirement s id = some r) :
    ∃ e, getCol s.requirements id = some e ∧ e.metadata = r := by
  simpa [get_requirement, Option.map_eq_some'] using h

theorem wf_req_fields {s : LoomStore} (hwf : WFReqs s) {id : String} {e : Entry Requirement}
    (h : getCol s.requirements id = some e) :
    e.metadata.id = id ∧ e.document = e.metadata.value := by
  have hm := getCol_mem h
  have := hwf _ hm
  exact ⟨this.1.symm, this.2⟩

theorem supersede_eq_add {s : LoomStore} {id : String} (now : String) {r : Requirement}
    {e : Entry Requirement} (hget : getCol s.requirements id = some e)
    (hmeta : e.metadata = r) (hfalsy : optStrFalsy r.superseded_at = true) :
    supersede_requirement s id now =
      add_requirement s { r with superseded_at := some now } e.embedding := by
  simp [supersede_requirement, get_requirement, getReqEmbedding, hget, hmeta, hfalsy]

theorem supersede_of_not_falsy {s : LoomStore} {id : String} (now : String) {r : Requirement}
    (hget : get_requirement s id = some r) (h : optStrFalsy r.superseded_at = false) :
    supersede_requirement s id now = s := by
  simp [supersede_requirement, hget, h]

theorem supersede_of_absent {s : LoomStore} {id : String} (now : String)
    (hget : get_requirement s id = none) : supersede_requirement s id now = s := by
  simp [supersede_requirement, hget]

/-! ## C1: supersession monotonicity -/

theorem nonNullAt_applyOp (s : LoomStore) (id : String) (op : Op)
    (h : nonNullAt s id = true) (hop : opAvoids id op = true) :
    nonNullAt (applyOp s op) id = true := by
  cases op with
  | addReq req emb =>
    show nonNullAt (add_requirement s req emb) id = true
    by_cases hid : req.id = id
    · have hget : get_requirement (add_requirement s req emb) id = some req := by
        rw [← hid]; exact get_requirement_add_self s req emb
      have hne : req.superseded_at ≠ none := by
        simp only [opAvoids, hid, decide_eq_true_eq, true_and] at hop
        simpa using hop
      simp [nonNullAt, hget, Option.isSome_iff_ne_none, hne]
    · have hne : id ≠ req.id := fun hh => hid hh.symm
      show nonNullAt (add_requirement s req emb) id = true
      rw [nonNullAt, get_requirement_add_other s req emb id hne]
      exact h
  | supersedeReq rid now =>
    show nonNullAt (supersede_requirement s rid now) id = true
    cases hg : get_requirement s rid with
    | none => rw [supersede_of_absent now hg]; exact h
    | some req =>
      cases hf : optStrFalsy req.superseded_at with
      | false => rw [supersede_of_not_falsy now hg hf]; exact h
      | true =>
        obtain ⟨e, he, hme⟩ := get_requirement_entry hg
        rw [supersede_eq_add now he hme hf]
        by_cases hid : req.id = id
        · have hget : get_requirement
              (add_requirement s { req with superseded_at := some now } e.embedding) id
              = some { req with superseded_at := some now } := by
            rw [← hid]
            exact get_requirement_add_self s { req with superseded_at := some now } e.embedding
          simp [nonNullAt, hget]
        · have hne : id ≠ ({ req with superseded_at := some now } : Requirement).id :=
            fun hh => hid hh.symm
          rw [nonNullAt,
            get_requirement_add_other s { req with superseded_at := some now } e.embedding id hne]
          exact h
  | addImpl impl emb => exact h
  | addChat msg_id content emb session role timestamp => exact h

theorem nonNullAt_applyOps (ops : List Op) :
    ∀ (s : LoomStore) (id : String), nonNullAt s id = true →
      (∀ op ∈ ops, opAvoids id op = true) → nonNullAt (applyOps s ops) id = true := by
  induction ops with
  | nil => intro s id h _; exact h
  | cons op rest ih =>
    intro s id h hops
    show nonNullAt (applyOps (applyOp s op) rest) id = true
    exact ih (applyOp s op) id
      (nonNullAt_applyOp s id op h (hops op (List.mem_cons_self _ _)))
      (fun o ho => hops o (List.mem_cons_of_mem _ ho))

theorem nonNullAt_supersede (s : LoomStore) (id now : String) (hwf : WFReqs s)
    (hex : (get_requirement s id).isSome = true) :
    nonNullAt (supersede_requirement s id now) id = true := by
  obtain ⟨r, hr⟩ := Option.isSome_iff_exists.mp hex
  obtain ⟨e, he, hme⟩ := get_requirement_entry hr
  have hid : r.id = id := by rw [← hme]; exact (wf_req_fields hwf he).1
  cases hf : optStrFalsy r.superseded_at with
  | false =>
    rw [supersede_of_not_falsy now hr hf]
    simp [nonNullAt, hr, isSome_of_not_falsy hf]
  | true =>
    rw [supersede_eq_add now he hme hf]
    have hid' : ({ r with superseded_at := some now } : Requirement).id = id := hid
    have hget : get_requirement
        (add_requirement s { r with superseded_at := some now } e.embedding) id
        = some { r with superseded_at := some now } := by
      rw [← hid']
      exact get_requirement_add_self s { r with superseded_at := some now } e.embedding
    simp [nonNullAt, hget]

/-- C1 counterexample.  The claim quantifies over all store operations, but
`add_requirement` is a raw upsert: re-adding the original active record over
a superseded one sets `superseded_at` back to null.  Concretely, after
`supersede_requirement` leaves `REQ-001` with `superseded_at` set,
`add_requirement` of the original record clears it to null again. -/
theorem supersession_clearable_by_add :
    (get_requirement demoSuperStore "REQ-001").map Requirement.superseded_at
      = some (some "2026-02-01T00:00:00+00:00") ∧
    (get_requirement (add_requirement demoSuperStore demoReq [1]) "REQ-001").map
        Requirement.superseded_at = some none := by
  decide

/-- C1 (amended).  Supersession monotonicity holds for every operation
except an `add_requirement` that passes the same id with a null
`superseded_at`: (1) once a stored requirement has non-null `superseded_at`,
any sequence of operations avoiding such an add leaves it non-null; and (2)
after `supersede_requirement(id)` completes on an existing requirement in a
well-formed store, every later such sequence leaves
`get_requirement(id).superseded_at` non-null. -/
theorem supersession_monotonic_amended :
    (∀ (s : LoomStore) (id : String) (ops : List Op),
      nonNullAt s id = true → (∀ op ∈ ops, opAvoids id op = true) →
      nonNullAt (applyOps s ops) id = true) ∧
    (∀ (s : LoomStore) (id now : String) (ops : List Op),
      WFReqs s → (get_requirement s id).isSome = true →
      (∀ op ∈ ops, opAvoids id op = true) →
      nonNullAt (applyOps (supersede_requirement s id now) ops) id = true) :=
  ⟨fun s id ops h hops => nonNullAt_applyOps ops s id h hops,
   fun s id now ops hwf hex hops =>
     nonNullAt_applyOps ops _ id (nonNullAt_supersede s id now hwf hex) hops⟩

/-- C1 witness: the amended theorem applied to the concrete sample store,
superseding `REQ-001` and then running an implementation add, a chat add and
an unrelated requirement add. -/
theorem supersession_monotonic_amended_witness :
    nonNullAt
      (applyOps (supersede_requirement demoStore "REQ-001" "2026-02-01T00:00:00+00:00")
        [Op.addImpl demoImpl [1],
         Op.addChat "msg-2" "hello" [1] "test-session" "user" "2026-03-01T00:00:00+00:00",
         Op.addReq demoReqEmptyTs [1]])
      "REQ-001" = true :=
  supersession_monotonic_amended.2 demoStore "REQ-001" "2026-02-01T00:00:00+00:00"
    [Op.addImpl demoImpl [1],
     Op.addChat "msg-2" "hello" [1] "test-session" "user" "2026-03-01T00:00:00+00:00",
     Op.addReq demoReqEmptyTs [1]]
    (by decide) (by decide) (by decide)

/-! ## C3: supersede is (almost) a silent no-op on absent or superseded ids -/

/-- C3 counterexample.  `supersede_requirement` guards with Python
truthiness (`not req.superseded_at`), not a null test: a requirement whose
`superseded_at` is the empty string — non-null, hence already superseded by
the data model of spec §3 — is *not* left unchanged; the operation
overwrites its `superseded_at` with the new timestamp. -/
theorem supersede_empty_string_not_noop :
    (get_requirement demoEmptyTsStore "REQ-002").map Requirement.superseded_at
      = some (some "") ∧
    supersede_requirement demoEmptyTsStore "REQ-002" "2026-02-01T00:00:00+00:00"
      ≠ demoEmptyTsStore ∧
    (get_requirement
        (supersede_requirement demoEmptyTsStore "REQ-002" "2026-02-01T00:00:00+00:00")
        "REQ-002").map Requirement.superseded_at
      = some (some "2026-02-01T00:00:00+00:00") := by
  decide

/-- C3 (amended).  `supersede_requirement(id)` leaves the store unchanged
and raises no error when `id` is absent, or when the stored `superseded_at`
is a non-empty string; when the record exists with `superseded_at` null
*or empty* (Python-falsy), it sets `superseded_at` to the current time and
re-upserts the otherwise unchanged record under the same id with the same
embedding fetched back from the store, not recomputed. -/
theorem supersede_noop_amended :
    (∀ (s : LoomStore) (req_id now : String),
      get_requirement s req_id = none → supersede_requirement s req_id now = s) ∧
    (∀ (s : LoomStore) (req_id now : String) (r : Requirement) (t : String),
      get_requirement s req_id = some r → r.superseded_at = some t → t ≠ "" →
      supersede_requirement s req_id now = s) ∧
    (∀ (s : LoomStore) (req_id now : String) (r : Requirement),
      get_requirement s req_id = some r → optStrFalsy r.superseded_at = true →
      ∃ emb, getReqEmbedding s req_id = some emb ∧
        supersede_requirement s req_id now =
          add_requirement s { r with superseded_at := some now } emb) := by
  refine ⟨?_, ?_, ?_⟩
  · intro s req_id now h
    exact supersede_of_absent now h
  · intro s req_id now r t hget hsup ht
    apply supersede_of_not_falsy now hget
    simp [optStrFalsy, hsup, ht]
  · intro s req_id now r hget hf
    obtain ⟨e, he, hme⟩ := get_requirement_entry hget
    exact ⟨e.embedding, by simp [getReqEmbedding, he], supersede_eq_add now he hme hf⟩

/-- C3 witness: the amended theorem applied to an absent id on the empty
store and to the active requirement of the sample store. -/
theorem supersede_noop_amended_witness :
    supersede_requirement emptyStore "REQ-404" "2026-02-01T00:00:00+00:00" = emptyStore ∧
    (∃ emb, getReqEmbedding demoStore "REQ-001" = some emb ∧
      supersede_requirement demoStore "REQ-001" "2026-02-01T00:00:00+00:00" =
        add_requirement demoStore
          { demoReq with superseded_at := some "2026-02-01T00:00:00+00:00" } emb) :=
  ⟨supersede_noop_amended.1 emptyStore "REQ-404" "2026-02-01T00:00:00+00:00" (by decide),
   supersede_noop_amended.2.2 demoStore "REQ-001" "2026-02-01T00:00:00+00:00" demoReq
     (by decide) (by decide)⟩

/-! ## C4: frame effect of supersession -/

/-- C4.  Frame effect: superseding an active requirement of a well-formed
store changes only its `superseded_at` field (the returned record is the old
one with `superseded_at := now`); the stored document and embedding vector
are unchanged, the collection holds exactly the same ids in the same order
(no second record), and every other id maps to an untouched entry. -/
theorem supersede_frame_effect (s : LoomStore) (id now : String) (r : Requirement)
    (hwf : WFReqs s) (hr : get_requirement s id = some r) (hact : r.superseded_at = none) :
    get_requirement (supersede_requirement s id now) id
      = some { r with superseded_at := some now } ∧
    getReqDocument (supersede_requirement s id now) id = getReqDocument s id ∧
    getReqEmbedding (supersede_requirement s id now) id = getReqEmbedding s id ∧
    (supersede_requirement s id now).requirements.map Prod.fst
      = s.requirements.map Prod.fst ∧
    (∀ other, other ≠ id →
      getCol (supersede_requirement s id now).requirements other
        = getCol s.requirements other) := by
  obtain ⟨e, he, hme⟩ := get_requirement_entry hr
  have hwff := wf_req_fields hwf he
  have hid : r.id = id := by rw [← hme]; exact hwff.1
  have hdoc : e.document = r.value := by rw [← hme]; exact hwff.2
  subst hid
  have hf : optStrFalsy r.superseded_at = true := by simp [optStrFalsy, hact]
  rw [supersede_eq_add now he hme hf]
  refine ⟨?_, ?_, ?_, ?_, ?_⟩
  · exact get_requirement_add_self s { r with superseded_at := some now } e.embedding
  · simp [getReqDocument, add_requirement, getCol_upsert_self, he, hdoc]
  · simp [getReqEmbedding, add_requirement, getCol_upsert_self, he]
  · have hmem : r.id ∈ s.requirements.map Prod.fst :=
      getCol_isSome_of_mapFst s.requirements r.id (by simp [he])
    simp [add_requirement, mapFst_upsert, hmem]
  · intro other hne
    exact getCol_upsert_other s.requirements _ other _ hne

/-- C4 witness: the frame-effect theorem applied to the sample store and its
active requirement `REQ-001`. -/
theorem supersede_frame_effect_witness :
    get_requirement
        (supersede_requirement demoStore "REQ-001" "2026-02-01T00:00:00+00:00") "REQ-001"
      = some { demoReq with superseded_at := some "2026-02-01T00:00:00+00:00" } ∧
    getReqDocument (supersede_requirement demoStore "REQ-001" "2026-02-01T00:00:00+00:00")
        "REQ-001" = getReqDocument demoStore "REQ-001" ∧
    getReqEmbedding (supersede_requirement demoStore "REQ-001" "2026-02-01T00:00:00+00:00")
        "REQ-001" = getReqEmbedding demoStore "REQ-001" ∧
    (supersede_requirement demoStore "REQ-001"
        "2026-02-01T00:00:00+00:00").requirements.map Prod.fst
      = demoStore.requirements.map Prod.fst ∧
    (∀ other, other ≠ "REQ-001" →
      getCol (supersede_requirement demoStore "REQ-001"
          "2026-02-01T00:00:00+00:00").requirements other
        = getCol demoStore.requirements other) :=
  supersede_frame_effect demoStore "REQ-001" "2026-02-01T00:00:00+00:00" demoReq
    (by decide) (by decide) (by decide)

/-! ## C8: the serialize / deserialize boundary is round-trip exact -/

theorem hexVal_hexDigitChar (n : Nat) (h : n < 16) : hexVal (hexDigitChar n) = some n := by
  interval_cases n <;> decide

theorem hex4_hex4Chars (n : Nat) (h : n < 65536) :
    hex4 (hexDigitChar (n / 4096 % 16)) (hexDigitChar (n / 256 % 16))
      (hexDigitChar (n / 16 % 16)) (hexDigitChar (n % 16)) = some n := by
  have e1 := hexVal_hexDigitChar (n / 4096 % 16) (Nat.mod_lt _ (by norm_num))
  have e2 := hexVal_hexDigitChar (n / 256 % 16) (Nat.mod_lt _ (by norm_num))
  have e3 := hexVal_hexDigitChar (n / 16 % 16) (Nat.mod_lt _ (by norm_num))
  have e4 := hexVal_hexDigitChar (n % 16) (Nat.mod_lt _ (by norm_num))
  simp only [hex4, e1, e2, e3, e4, Option.some.injEq]
  omega

theorem parseStr_lit (c : Char) (rest : List Char) (h1 : ¬ c = '"') (h2 : ¬ c = '\\') :
    parseStrContent (c :: rest) = consRes c (parseStrContent rest) := by
  simp [parseStrContent, h1, h2]

theorem parseStr_u (d1 d2 d3 d4 : Char) (v : Nat) (rest : List Char)
    (hv : hex4 d1 d2 d3 d4 = some v)
    (hns1 : ¬ (0xD800 ≤ v ∧ v ≤ 0xDBFF)) (hns2 : ¬ (0xDC00 ≤ v ∧ v ≤ 0xDFFF)) :
    parseStrContent ('\\' :: 'u' :: d1 :: d2 :: d3 :: d4 :: rest)
      = consRes (Char.ofNat v) (parseStrContent rest) := by
  simp [parseStrContent, parseEscape, parseUnicode, hv, hns1, hns2]

theorem parseStr_surr (d1 d2 d3 d4 e1 e2 e3 e4 : Char) (hi lo : Nat) (rest : List Char)
    (hv1 : hex4 d1 d2 d3 d4 = some hi) (hhi : 0xD800 ≤ hi ∧ hi ≤ 0xDBFF)
    (hv2 : hex4 e1 e2 e3 e4 = some lo) (hlo : 0xDC00 ≤ lo ∧ lo ≤ 0xDFFF) :
    parseStrContent
        ('\\' :: 'u' :: d1 :: d2 :: d3 :: d4 :: '\\' :: 'u' :: e1 :: e2 :: e3 :: e4 :: rest)
      = consRes (Char.ofNat (0x10000 + (hi - 0xD800) * 0x400 + (lo - 0xDC00)))
          (parseStrContent rest) := by
  simp [parseStrContent, parseEscape, parseUnicode, parseLowSurrogate, hv1, hv2, hhi, hlo]

theorem parseStrContent_esc (c : Char) (rest : List Char) :
    parseStrContent (escChar c ++ rest) = consRes c (parseStrContent rest) := by
  have hv : c.toNat < 0xd800 ∨ (0xdfff < c.toNat ∧ c.toNat < 0x110000) := c.valid
  by_cases h1 : c = '"'
  · subst h1; simp [escChar, parseStrContent, parseEscape]
  by_cases h2 : c = '\\'
  · subst h2; simp [escChar, parseStrContent, parseEscape]
  by_cases h3 : c = '\n'
  · subst h3; simp [escChar, parseStrContent, parseEscape]
  by_cases h4 : c = '\t'
  · subst h4; simp [escChar, parseStrContent, parseEscape]
  by_cases h5 : c = '\r'
  · subst h5; simp [escChar, parseStrContent, parseEscape]
  by_cases h6 : c.toNat = 8
  · have hc : Char.ofNat 8 = c := by rw [← h6, Char.ofNat_toNat]
    simp [escChar, h1, h2, h3, h4, h5, h6, parseStrContent, parseEscape]
    rw [hc]
  by_cases h7 : c.toNat = 12
  · have hc : Char.ofNat 12 = c := by rw [← h7, Char.ofNat_toNat]
    simp [escChar, h1, h2, h3, h4, h5, h6, h7, parseStrContent, parseEscape]
    rw [hc]
  by_cases h8 : c.toNat < 0x20
  · have hesc : escChar c = '\\' :: 'u' :: hex4Chars c.toNat := by
      simp [escChar, h1, h2, h3, h4, h5, h6, h7, h8]
    rw [hesc, hex4Chars]
    simp only [List.cons_append, List.nil_append]
    rw [parseStr_u _ _ _ _ c.toNat rest (hex4_hex4Chars c.toNat (by omega))
      (by omega) (by omega), Char.ofNat_toNat]
  by_cases h9 : c.toNat < 0x7f
  · have hesc : escChar c = [c] := by
      simp [escChar, h1, h2, h3, h4, h5, h6, h7, h8, h9]
    rw [hesc, List.singleton_append, parseStr_lit c rest h1 h2]
  by_cases h10 : c.toNat < 0x10000
  · have hsides : ¬ (0xD800 ≤ c.toNat ∧ c.toNat ≤ 0xDBFF) ∧
        ¬ (0xDC00 ≤ c.toNat ∧ c.toNat ≤ 0xDFFF) := by
      rcases hv with h | ⟨h, _⟩ <;> exact ⟨by omega, by omega⟩
    have hesc : escChar c = '\\' :: 'u' :: hex4Chars c.toNat := by
      simp [escChar, h1, h2, h3, h4, h5, h6, h7, h8, h9, h10]
    rw [hesc, hex4Chars]
    simp only [List.cons_append, List.nil_append]
    rw [parseStr_u _ _ _ _ c.toNat rest (hex4_hex4Chars c.toNat (by omega))
      hsides.1 hsides.2, Char.ofNat_toNat]
  · have hup : c.toNat < 0x110000 := by rcases hv with h | ⟨_, h⟩ <;> omega
    have hesc : escChar c =
        '\\' :: 'u' :: hex4Chars (0xD800 + (c.toNat - 0x10000) / 0x400) ++
        '\\' :: 'u' :: hex4Chars (0xDC00 + (c.toNat - 0x10000) % 0x400) := by
      simp [escChar, h1, h2, h3, h4, h5, h6, h7, h8, h9, h10]
    rw [hesc, hex4Chars, hex4Chars]
    simp only [List.cons_append, List.nil_append, List.append_assoc]
    rw [parseStr_surr _ _ _ _ _ _ _ _
      (0xD800 + (c.toNat - 0x10000) / 0x400) (0xDC00 + (c.toNat - 0x10000) % 0x400) rest
      (hex4_hex4Chars _ (by omega)) ⟨by omega, by omega⟩
      (hex4_hex4Chars _ (by omega)) ⟨by omega, by omega⟩]
    have harith : 0x10000 + (0xD800 + (c.toNat - 0x10000) / 0x400 - 0xD800) * 0x400 +
        (0xDC00 + (c.toNat - 0x10000) % 0x400 - 0xDC00) = c.toNat := by omega
    rw [harith, Char.ofNat_toNat]

theorem parseStrContent_flat (s rest : List Char) :
    parseStrContent (s.flatMap escChar ++ ('"' :: rest)) = some (s, rest) := by
  induction s with
  | nil => simp [parseStrContent]
  | cons c cs ih =>
    rw [List.flatMap_cons, List.append_assoc, parseStrContent_esc, ih]
    rfl

theorem parseQuoted_enc (s rest : List Char) :
    parseQuoted (encStr s ++ rest) = some (s, rest) := by
  rw [encStr]
  simp only [List.cons_append, List.append_assoc, List.singleton_append]
  rw [parseQuoted, parseStrContent_flat]
  simp

theorem dropLit_append (p rest : List Char) : dropLit p (p ++ rest) = some rest := by
  induction p with
  | nil => rfl
  | cons c cs ih => simp [dropLit, ih]

theorem stringMk_data (s : String) : String.mk s.data = s := rfl

theorem parseLink_enc (sl : SatLink) (rest : List Char) :
    parseLink (encLink sl ++ rest) = some (sl, rest) := by
  rw [encLink]
  simp only [List.append_assoc]
  rw [parseLink]
  simp only [dropLit_append, Option.bind_eq_bind, Option.some_bind]
  rw [parseQuoted_enc]
  simp only [Option.some_bind]
  rw [dropLit_append]
  simp only [Option.some_bind]
  rw [parseQuoted_enc]
  simp only [Option.some_bind]
  rw [show (['\x7d'] : List Char) ++ rest = '\x7d' :: rest from rfl]
  rw [show dropLit ['\x7d'] ('\x7d' :: rest) = some rest from dropLit_append ['\x7d'] rest]
  simp only [Option.some_bind, stringMk_data]

theorem encLink_length_pos (sl : SatLink) : 0 < (encLink sl).length := by
  rw [encLink]
  simp only [List.length_append]
  have : 0 < linkKeyId.length := by decide
  omega

theorem encLinks_length (ls : List SatLink) (sl : SatLink) :
    ls.length < (encLinks (sl :: ls)).length := by
  induction ls generalizing sl with
  | nil => simpa [encLinks] using encLink_length_pos sl
  | cons x xs ih =>
    have h := ih x
    have hp := encLink_length_pos sl
    simp only [encLinks, List.length_append, List.length_cons] at h ⊢
    omega

theorem parseLinksRest_enc (ls : List SatLink) :
    ∀ (sl : SatLink) (fuel : Nat), ls.length < fuel →
      parseLinksRest fuel (encLinks (sl :: ls) ++ [']']) = some (sl :: ls) := by
  induction ls with
  | nil =>
    intro sl fuel hf
    obtain ⟨f, rfl⟩ : ∃ f, fuel = f + 1 := ⟨fuel - 1, by omega⟩
    show parseLinksRest (f + 1) (encLinks [sl] ++ [']']) = some [sl]
    rw [show encLinks [sl] = encLink sl from rfl]
    simp [parseLinksRest, parseLink_enc]
  | cons x xs ih =>
    intro sl fuel hf
    obtain ⟨f, rfl⟩ : ∃ f, fuel = f + 1 := ⟨fuel - 1, by omega⟩
    have hxs : xs.length < f := by
      simp only [List.length_cons] at hf
      omega
    have hshape : encLinks (sl :: x :: xs) ++ [']']
        = encLink sl ++ (',' :: ' ' :: (encLinks (x :: xs) ++ [']'])) := by
      simp [encLinks, List.append_assoc]
    rw [hshape]
    simp only [parseLinksRest, parseLink_enc]
    rw [ih x f hxs]
    rfl

theorem loads_dumps (l : List SatLink) : loadsSatisfies (dumpsSatisfies l) = some l := by
  cases l with
  | nil => rfl
  | cons sl ls =>
    have hne : ¬ (encLinks (sl :: ls) ++ [']'] = [']']) := by
      intro h
      have hlen := congrArg List.length h
      have hgt := encLinks_length ls sl
      simp only [List.length_append, List.length_cons, List.length_nil] at hlen
      omega
    show (if encLinks (sl :: ls) ++ [']'] = [']'] then some []
      else parseLinksRest (encLinks (sl :: ls) ++ [']']).length (encLinks (sl :: ls) ++ [']']))
      = some (sl :: ls)
    rw [if_neg hne]
    apply parseLinksRest_enc
    have := encLinks_length ls sl
    simp only [List.length_append, List.length_cons, List.length_nil]
    omega

theorem decode_encode (impl : Implementation) :
    decodeImplMeta (encodeImplMeta impl) = some impl := by
  simp [decodeImplMeta, encodeImplMeta, loads_dumps]

theorem get_impl_add (s : LoomStore) (impl : Implementation) (emb : List Rat) :
    get_implementation (add_implementation s impl emb) impl.id = some impl := by
  simp [get_implementation, add_implementation, getCol_upsert_self, decode_encode]

/-- C8.  Satisfies-list round-trip: after `add_implementation`,
`get_implementation` of the same id returns a record equal to the one
added — in particular the `satisfies` link list survives the
`json.dumps` / `json.loads` storage boundary exactly, preserving order,
length and every field, for arbitrary link contents. -/
theorem implementation_roundtrip :
    ∀ (s : LoomStore) (impl : Implementation) (embedding : List Rat),
      get_implementation (add_implementation s impl embedding) impl.id = some impl :=
  fun s impl emb => get_impl_add s impl emb

/-! ## C9: find-by-requirement is an exact full scan -/

theorem implsScan_exact (req_id : String) (col : List (String × Entry StoredImplMeta))
    (hwf : ∀ p ∈ col, (decodeImplMeta p.2.metadata).isSome = true) :
    ∃ l,
      col.foldr
        (fun p acc =>
          match decodeImplMeta p.2.metadata, acc with
          | some impl, some l =>
            some (if impl.satisfies.any (fun sl => sl.req_id = req_id) then impl :: l else l)
          | _, _ => none)
        (some []) = some l ∧
      ∀ impl, impl ∈ l ↔
        ((∃ p ∈ col, decodeImplMeta p.2.metadata = some impl) ∧
         impl.satisfies.any (fun sl => sl.req_id = req_id) = true) := by
  induction col with
  | nil => exact ⟨[], rfl, by simp⟩
  | cons p rest ih =>
    have hp := hwf p (List.mem_cons_self _ _)
    obtain ⟨impl0, h0⟩ := Option.isSome_iff_exists.mp hp
    obtain ⟨l, hl, hmem⟩ := ih (fun q hq => hwf q (List.mem_cons_of_mem _ hq))
    rw [List.foldr_cons, hl, h0]
    by_cases hsat : impl0.satisfies.any (fun sl => sl.req_id = req_id) = true
    · refine ⟨impl0 :: l, by simp [hsat], ?_⟩
      intro impl
      rw [List.mem_cons, hmem impl]
      constructor
      · rintro (rfl | ⟨⟨q, hq, hdq⟩, hs⟩)
        · exact ⟨⟨p, List.mem_cons_self _ _, h0⟩, hsat⟩
        · exact ⟨⟨q, List.mem_cons_of_mem _ hq, hdq⟩, hs⟩
      · rintro ⟨⟨q, hq, hdq⟩, hs⟩
        rcases List.mem_cons.mp hq with rfl | hq'
        · rw [h0] at hdq
          exact Or.inl (Option.some.inj hdq).symm
        · exact Or.inr ⟨⟨q, hq', hdq⟩, hs⟩
    · refine ⟨l, by simp [hsat], ?_⟩
      intro impl
      rw [hmem impl]
      constructor
      · rintro ⟨⟨q, hq, hdq⟩, hs⟩
        exact ⟨⟨q, List.mem_cons_of_mem _ hq, hdq⟩, hs⟩
      · rintro ⟨⟨q, hq, hdq⟩, hs⟩
        rcases List.mem_cons.mp hq with rfl | hq'
        · rw [h0] at hdq
          rw [← Option.some.inj hdq] at hs
          exact absurd hs hsat
        · exact ⟨⟨q, hq', hdq⟩, hs⟩

/-- C9.  Find-by-requirement exactness: on a store whose serialized
`satisfies` strings all parse (every API-reachable store does, by the C8
round-trip), `get_implementations_for_requirement` succeeds and returns
exactly the stored implementations whose deserialized `satisfies` list has
at least one link with the given `req_id`, and no others. -/
theorem impls_for_requirement_exact (s : LoomStore) (req_id : String)
    (hwf : ∀ p ∈ s.implementations, (decodeImplMeta p.2.metadata).isSome = true) :
    ∃ l, get_implementations_for_requirement s req_id = some l ∧
      ∀ impl, impl ∈ l ↔
        ((∃ p ∈ s.implementations, decodeImplMeta p.2.metadata = some impl) ∧
         impl.satisfies.any (fun sl => sl.req_id = req_id) = true) :=
  implsScan_exact req_id s.implementations hwf

/-- C9 witness: the exactness theorem applied to the one-implementation
sample store, whose stored `satisfies` string parses by construction. -/
theorem impls_for_requirement_exact_witness :
    ∃ l, get_implementations_for_requirement demoImplStore "REQ-001" = some l ∧
      ∀ impl, impl ∈ l ↔
        ((∃ p ∈ demoImplStore.implementations, decodeImplMeta p.2.metadata = some impl) ∧
         impl.satisfies.any (fun sl => sl.req_id = "REQ-001") = true) :=
  impls_for_requirement_exact demoImplStore "REQ-001" (by decide)

/-! ## C10: idempotent re-link -/

/-- C10.  Idempotent re-link: `generate_impl_id` is a pure function of
`(file, lines)` alone — its very type takes no content — so two
implementations built from the same location carry the same id, and adding
the second after the first replaces the stored record under that id (the
lookup returns the second record), adds no new id, and, when the starting
id list has no duplicates, leaves exactly one record under the shared id. -/
theorem relink_idempotent (s : LoomStore) (f l : String) (impl1 impl2 : Implementation)
    (e1 e2 : List Rat) (h1 : impl1.id = generate_impl_id f l)
    (h2 : impl2.id = generate_impl_id f l)
    (hnd : (s.implementations.map Prod.fst).Nodup) :
    impl1.id = impl2.id ∧
    get_implementation (add_implementation (add_implementation s impl1 e1) impl2 e2) impl2.id
      = some impl2 ∧
    (add_implementation (add_implementation s impl1 e1) impl2 e2).implementations.map Prod.fst
      = (add_implementation s impl1 e1).implementations.map Prod.fst ∧
    ((add_implementation (add_implementation s impl1 e1) impl2 e2).implementations.map
        Prod.fst).count impl2.id = 1 := by
  have hid : impl1.id = impl2.id := by rw [h1, h2]
  have hmem : impl2.id ∈ (add_implementation s impl1 e1).implementations.map Prod.fst := by
    rw [← hid]
    exact mem_mapFst_upsert s.implementations impl1.id _
  refine ⟨hid, get_impl_add _ impl2 e2, ?_, ?_⟩
  · show (upsert (add_implementation s impl1 e1).implementations impl2.id _).map Prod.fst = _
    rw [mapFst_upsert, if_pos hmem]
  · have hnd2 : ((add_implementation (add_implementation s impl1 e1) impl2
        e2).implementations.map Prod.fst).Nodup :=
      nodup_upsert _ _ _ (nodup_upsert _ _ _ hnd)
    have hmem2 : impl2.id ∈ (add_implementation (add_implementation s impl1 e1) impl2
        e2).implementations.map Prod.fst :=
      mem_mapFst_upsert _ _ _
    exact List.count_eq_one_of_mem hnd2 hmem2

/-- C10 witness: two links of `(src/dashboard.py, 1-50)` with different
content, added to the empty store. -/
theorem relink_idempotent_witness :
    demoLoc1.id = demoLoc2.id ∧
    get_implementation
        (add_implementation (add_implementation emptyStore demoLoc1 [1]) demoLoc2 [2])
        demoLoc2.id = some demoLoc2 ∧
    (add_implementation (add_implementation emptyStore demoLoc1 [1])
        demoLoc2 [2]).implementations.map Prod.fst
      = (add_implementation emptyStore demoLoc1 [1]).implementations.map Prod.fst ∧
    ((add_implementation (add_implementation emptyStore demoLoc1 [1])
        demoLoc2 [2]).implementations.map Prod.fst).count demoLoc2.id = 1 :=
  relink_idempotent emptyStore "src/dashboard.py" "1-50" demoLoc1 demoLoc2 [1] [2]
    rfl rfl (by decide)

end Loom
